import Mathlib

/-!
# SVHNode: channel coordination of the SCHUNK five finger hand driver node

A shallow embedding of `src/src/SVHNode.cpp`:

* `SVHNode.jointStateCallback` (lines 161-213): the read loop over the joint
  names of a `sensor_msgs::JointState`, and the dispatch to the finger manager;
* `SVHNode.getCurrentPositions` (lines 216-235): the feedback snapshot;
* the controller settings part of the constructor (lines 51-87).

The finger manager `fm_` (class `driver_svh::SVHFingerManager`), the ROS node
handle and `icl_core::string2Enum` are libraries outside the file; they enter
as parameters or as small models, each marked as such.

Joint values are C++ `double`s that the node only stores and forwards, never
computes with: they are elements of an arbitrary type `V` whose `0` is `0.0`.
-/

namespace SVHNode

/-! ## Data model -/

/-- Modelled from the spec: the number of channels `driver_svh::eSVH_DIMENSION`.
The enumeration `driver_svh::SVHChannel` is declared in the driver header, which
is not part of the source file; the spec fixes `N = 9`, and so does the
constructor's loop bound `9` at line 40. -/
def eSVH_DIMENSION : Nat := 9

/-- Modelled from the spec: the table `SVHController::m_channel_description`
is defined in the driver library, not in the source file. The spec calls it a
static bijection between the `N` channel identifiers and their names: `N`
names, no name twice. -/
structure ChannelDescription where
  names : List String
  size_eq : names.length = eSVH_DIMENSION
  unique : names.Nodup

/-- Modelled from the spec: `icl_core::string2Enum(str, value, descriptions)`
is library code outside the source file. It is the registry lookup
`channelOf(name) -> Channel | NotFound` of the spec: the position of `str` in
the table, or failure when `str` is no entry of it. -/
def string2Enum (str : String) (descriptions : List String) : Option Nat :=
  if descriptions.indexOf str < descriptions.length then
    some (descriptions.indexOf str)
  else
    none

/-- The message `sensor_msgs::JointState`, as far as the node reads it: the
vectors `name` and `position`. -/
structure JointState (V : Type) where
  name : List String
  position : List V

/-- A target command that the node sends to the finger manager. -/
inductive Command (V : Type) where
  | setAllTargetPositions (positions : List V)
  | setTargetPosition (channel : Nat) (position : V) (velocity : V)
  deriving DecidableEq

/-- The finger manager `fm_` as the node uses it, over a driver state `σ`.
The driver is outside the source file: every member is a parameter.
`getPosition s c p` receives the content `p` of the reference argument and
returns the success flag and the content afterwards. -/
structure SVHFingerManager (σ V : Type) where
  isConnected : σ → Bool
  isHomed : σ → Nat → Bool
  getPosition : σ → Nat → V → Bool × V
  setAllTargetPositions : σ → List V → σ × Bool
  setTargetPosition : σ → Nat → V → V → σ × Bool

/-- The local variables of `jointStateCallback` (lines 163-168), and the
indices for which the warning of line 185 was logged. -/
structure ReadState (V : Type) where
  target_positions : List V
  pos_read : List Bool
  pos_read_counter : Nat
  warned : List Nat

/-- Lines 163-168: `target_positions` is `N` times `0.0`, `pos_read` is `N`
times `false`, `pos_read_counter` is `0`. -/
def ReadState.init (V : Type) [Zero V] : ReadState V :=
  { target_positions := List.replicate eSVH_DIMENSION 0
    pos_read := List.replicate eSVH_DIMENSION false
    pos_read_counter := 0
    warned := [] }

/-! ## jointStateCallback -/

/-- Lines 179-181: store the value in the channel's slot, mark the channel,
count the entry. `pos_read_counter` is a `u_int8_t`: the increment wraps
at 256. -/
def ReadState.record {V : Type} (st : ReadState V) (channel : Nat) (v : V) : ReadState V :=
  { st with
    target_positions := st.target_positions.set channel v
    pos_read := st.pos_read.set channel true
    pos_read_counter := (st.pos_read_counter + 1) % 256 }

/-- Body of the loop of line 172, for the name at position `index`
(lines 174-191). -/
def readStep {V : Type} (T : ChannelDescription) (position : List V)
    (st : ReadState V) (index : Nat) (joint_name : String) : ReadState V :=
  match string2Enum joint_name T.names with
  | some channel =>
    if h : position.length > index then
      st.record channel (position.get ⟨index, h⟩)
    else
      { st with warned := st.warned ++ [index] }
  | none => st

/-- The loop of line 172 over the remaining names; `index` runs with the
iterator. (`index` is an `int32_t`; a received message holds fewer than `2^31`
names, so it does not overflow and is a natural number here.) -/
def readLoop {V : Type} (T : ChannelDescription) (position : List V) :
    List String → Nat → ReadState V → ReadState V
  | [], _, st => st
  | joint_name :: rest, index, st =>
    readLoop T position rest (index + 1) (readStep T position st index joint_name)

/-- Lines 163-192: the state of the local variables after the loop. -/
def readInput {V : Type} [Zero V] (T : ChannelDescription) (input : JointState V) : ReadState V :=
  readLoop T input.position input.name 0 (ReadState.init V)

/-- What a run of `jointStateCallback` leaves behind: the driver state, the
commands sent to the driver in order, and whether `setAllTargetPositions`
returned `false`, the condition of line 197 under which line 199 warns (with
`ROS_WARN_ONCE`, so only the first time in the process). -/
structure Outcome (σ V : Type) where
  driver : σ
  commands : List (Command V)
  rejected : Bool

/-- Lines 205-211: the loop over the channels `i`, `i + 1`, ... (`fuel` of
them), sending one `setTargetPosition` for each channel marked in `pos_read`.
The result of the driver call is not looked at. -/
def sendAvailable {σ V : Type} [Zero V] (fm : SVHFingerManager σ V) (st : ReadState V) :
    Nat → Nat → σ → List (Command V) → σ × List (Command V)
  | 0, _, s, sent => (s, sent)
  | fuel + 1, i, s, sent =>
    if st.pos_read.getD i false then
      sendAvailable fm st fuel (i + 1)
        (fm.setTargetPosition s i (st.target_positions.getD i 0) 0).1
        (sent ++ [Command.setTargetPosition i (st.target_positions.getD i 0) 0])
    else
      sendAvailable fm st fuel (i + 1) s sent

/-- Lines 194-212: one `setAllTargetPositions` when the counter equals
`eSVH_DIMENSION`, otherwise the per channel loop. -/
def dispatch {σ V : Type} [Zero V] (fm : SVHFingerManager σ V) (s : σ) (st : ReadState V) :
    Outcome σ V :=
  if st.pos_read_counter = eSVH_DIMENSION then
    { driver := (fm.setAllTargetPositions s st.target_positions).1
      commands := [Command.setAllTargetPositions st.target_positions]
      rejected := !(fm.setAllTargetPositions s st.target_positions).2 }
  else
    { driver := (sendAvailable fm st eSVH_DIMENSION 0 s []).1
      commands := (sendAvailable fm st eSVH_DIMENSION 0 s []).2
      rejected := false }

/-- The callback `SVHNode::jointStateCallback` (lines 161-213). -/
def jointStateCallback {σ V : Type} [Zero V] (T : ChannelDescription)
    (fm : SVHFingerManager σ V) (s : σ) (input : JointState V) : Outcome σ V :=
  dispatch fm s (readInput T input)

/-! ## getCurrentPositions -/

/-- Lines 223-229 for one channel: `cur_pos` starts as `0.0` and is handed to
`getPosition` when the channel is homed. -/
def currentPosition {σ V : Type} [Zero V] (fm : SVHFingerManager σ V) (s : σ) (channel : Nat) : V :=
  if fm.isHomed s channel then (fm.getPosition s channel 0).2 else 0

/-- Lines 221-230: the loop over the channels `channel`, `channel + 1`, ...
(`fuel` of them), storing `cur_pos` in `channel_pos_.position[channel]`. -/
def updatePositions {σ V : Type} [Zero V] (fm : SVHFingerManager σ V) (s : σ) :
    Nat → Nat → List V → List V
  | 0, _, position => position
  | fuel + 1, channel, position =>
    updatePositions fm s fuel (channel + 1) (position.set channel (currentPosition fm s channel))

/-- Lines 90-91 of the constructor: `channel_pos_.position` is `N` times `0.0`. -/
def initialPositions (V : Type) [Zero V] : List V :=
  List.replicate eSVH_DIMENSION 0

/-- The positions of the message that `SVHNode::getCurrentPositions` returns
(lines 216-235); `channel_pos` is the member `channel_pos_.position` before the
call, and the result is also its content afterwards. -/
def getCurrentPositions {σ V : Type} [Zero V] (fm : SVHFingerManager σ V) (s : σ)
    (channel_pos : List V) : List V :=
  if fm.isConnected s then
    updatePositions fm s eSVH_DIMENSION 0 channel_pos
  else
    channel_pos

/-! ## Controller settings in the constructor -/

/-- Modelled from the spec: the values of `driver_svh::SVHChannel` are declared
in the driver header, not in the source file; the spec lists the channels in
this order (thumb flexion, thumb opposition, index finger distal and proximal,
middle finger distal and proximal, ring finger, pinky, finger spread), as dense
integers from `0`. -/
def eSVH_THUMB_FLEXION : Nat := 0
/-- Modelled from the spec: see `eSVH_THUMB_FLEXION`. -/
def eSVH_THUMB_OPPOSITION : Nat := 1
/-- Modelled from the spec: see `eSVH_THUMB_FLEXION`. -/
def eSVH_INDEX_FINGER_DISTAL : Nat := 2
/-- Modelled from the spec: see `eSVH_THUMB_FLEXION`. -/
def eSVH_INDEX_FINGER_PROXIMAL : Nat := 3
/-- Modelled from the spec: see `eSVH_THUMB_FLEXION`. -/
def eSVH_MIDDLE_FINGER_DISTAL : Nat := 4
/-- Modelled from the spec: see `eSVH_THUMB_FLEXION`. -/
def eSVH_MIDDLE_FINGER_PROXIMAL : Nat := 5
/-- Modelled from the spec: see `eSVH_THUMB_FLEXION`. -/
def eSVH_RING_FINGER : Nat := 6
/-- Modelled from the spec: see `eSVH_THUMB_FLEXION`. -/
def eSVH_PINKY : Nat := 7
/-- Modelled from the spec: see `eSVH_THUMB_FLEXION`. -/
def eSVH_FINGER_SPREAD : Nat := 8

/-- What `ros::NodeHandle::getParam(key, vec)` can do for a key (roscpp is
outside the source file, so the parameter server is a parameter
`String → ParamResult W`): store the list found under the key in `vec` and
return `true`; return `false` and leave `vec` as it is, when the key is not
set or its value is not a list; or throw `ros::InvalidNameException`. -/
inductive ParamResult (W : Type) where
  | retrieved (value : List W)
  | notRetrieved
  | invalidName
  deriving DecidableEq

/-- One statement `nh.getParam(key, settings[channel])` of lines 59-76. The
returned flag is not looked at by the constructor; `none` is the exception. -/
def readParam {W : Type} (nh : String → ParamResult W) (key : String)
    (settings : List (List W)) (channel : Nat) : Option (List (List W)) :=
  match nh key with
  | ParamResult.retrieved value => some (settings.set channel value)
  | ParamResult.notRetrieved => some settings
  | ParamResult.invalidName => none

/-- Which of the two vectors a `getParam` statement writes to. -/
inductive SettingsKind where
  | position_controller
  | current_controller
  deriving DecidableEq

/-- The eighteen `getParam` statements of lines 59-76 in order: the key, the
vector written to, and the channel of the slot. -/
def settingsStatements : List (String × SettingsKind × Nat) :=
  [ ("THUMB_FLEXION/position_controller", SettingsKind.position_controller, eSVH_THUMB_FLEXION),
    ("THUMB_FLEXION/current_controller", SettingsKind.current_controller, eSVH_THUMB_FLEXION),
    ("THUMB_OPPOSITION/position_controller", SettingsKind.position_controller, eSVH_THUMB_OPPOSITION),
    ("THUMB_OPPOSITION/current_controller", SettingsKind.current_controller, eSVH_THUMB_OPPOSITION),
    ("INDEX_FINGER_DISTAL/position_controller", SettingsKind.position_controller, eSVH_INDEX_FINGER_DISTAL),
    ("INDEX_FINGER_DISTAL/current_controller", SettingsKind.current_controller, eSVH_INDEX_FINGER_DISTAL),
    ("INDEX_FINGER_PROXIMAL/position_controller", SettingsKind.position_controller, eSVH_INDEX_FINGER_PROXIMAL),
    ("INDEX_FINGER_PROXIMAL/current_controller", SettingsKind.current_controller, eSVH_INDEX_FINGER_PROXIMAL),
    ("MIDDLE_FINGER_DISTAL/position_controller", SettingsKind.position_controller, eSVH_MIDDLE_FINGER_DISTAL),
    ("MIDDLE_FINGER_DISTAL/current_controller", SettingsKind.current_controller, eSVH_MIDDLE_FINGER_DISTAL),
    ("MIDDLE_FINGER_PROXIMAL/position_controller", SettingsKind.position_controller, eSVH_MIDDLE_FINGER_PROXIMAL),
    ("MIDDLE_FINGER_PROXIMAL/current_controller", SettingsKind.current_controller, eSVH_MIDDLE_FINGER_PROXIMAL),
    ("RING_FINGER/position_controller", SettingsKind.position_controller, eSVH_RING_FINGER),
    ("RING_FINGER/current_controller", SettingsKind.current_controller, eSVH_RING_FINGER),
    ("PINKY/position_controller", SettingsKind.position_controller, eSVH_PINKY),
    ("PINKY/current_controller", SettingsKind.current_controller, eSVH_PINKY),
    ("FINGER_SPREAD/position_controller", SettingsKind.position_controller, eSVH_FINGER_SPREAD),
    ("FINGER_SPREAD/current_controller", SettingsKind.current_controller, eSVH_FINGER_SPREAD) ]

/-- Run `getParam` statements one after the other on the pair
`(position_settings, current_settings)`; `none` as soon as one throws. -/
def readStatements {W : Type} (nh : String → ParamResult W) :
    List (String × SettingsKind × Nat) → List (List W) × List (List W) →
    Option (List (List W) × List (List W))
  | [], settings => some settings
  | (key, SettingsKind.position_controller, channel) :: rest, (position_settings, current_settings) =>
    match readParam nh key position_settings channel with
    | some updated => readStatements nh rest (updated, current_settings)
    | none => none
  | (key, SettingsKind.current_controller, channel) :: rest, (position_settings, current_settings) =>
    match readParam nh key current_settings channel with
    | some updated => readStatements nh rest (position_settings, updated)
    | none => none

/-- Lines 51-76: both vectors start as `N` empty lists and are filled by the
eighteen `getParam` statements; `none` when one of them throws. The result is
`(position_settings, current_settings)`. -/
def readControllerSettings {W : Type} (nh : String → ParamResult W) :
    Option (List (List W) × List (List W)) :=
  readStatements nh settingsStatements
    (List.replicate eSVH_DIMENSION [], List.replicate eSVH_DIMENSION [])

/-- A settings call that the constructor sends to the finger manager through
`SVHNode::setCurrentControllerParams` and `SVHNode::setPositionControllerParams`
(lines 244-253); the settings objects are built from the lists as they are. -/
inductive ConfigCall (W : Type) where
  | setCurrentControllerParams (channel : Nat) (settings : List W)
  | setPositionControllerParams (channel : Nat) (settings : List W)
  deriving DecidableEq

/-- Lines 78-82: for the channels `channel`, `channel + 1`, ... (`fuel` of
them) first the current settings, then the position settings. The wrappers of
lines 244-253 are declared `bool` and have no `return` statement; the calls
are listed as for wrappers that return to the loop, and the first call of line
80 is sent to the finger manager in any case. -/
def applySettings {W : Type} (position_settings current_settings : List (List W)) :
    Nat → Nat → List (ConfigCall W)
  | 0, _ => []
  | fuel + 1, channel =>
    ConfigCall.setCurrentControllerParams channel (current_settings.getD channel []) ::
    ConfigCall.setPositionControllerParams channel (position_settings.getD channel []) ::
    applySettings position_settings current_settings fuel (channel + 1)

/-- Lines 51-87 of the constructor: the settings calls sent to the finger
manager, and whether the error of line 86 was logged. -/
def configureControllers {W : Type} (nh : String → ParamResult W) : List (ConfigCall W) × Bool :=
  match readControllerSettings nh with
  | some (position_settings, current_settings) =>
    (applySettings position_settings current_settings eSVH_DIMENSION 0, false)
  | none => ([], true)

/-! ## Auxiliary definitions for the statements -/

/-- The entries of an update that the read loop accepts, in order: a name is
paired with the value at the same index (names without a value have no pair),
and the pair counts when the name resolves to a channel. The entry is the
channel with the value. -/
def acceptedEntries {V : Type} (T : ChannelDescription) (name : List String) (position : List V) :
    List (Nat × V) :=
  (name.zip position).filterMap
    (fun p => (string2Enum p.1 T.names).map (fun channel => (channel, p.2)))

/-- The `setTargetPosition` commands for the channels marked in `pos_read`, in
ascending channel order, each with the channel's slot of `target_positions`
and velocity `0.0`. -/
def availableCommands {V : Type} [Zero V] (st : ReadState V) : List (Command V) :=
  ((List.range eSVH_DIMENSION).filter (fun c => st.pos_read.getD c false)).map
    (fun c => Command.setTargetPosition c (st.target_positions.getD c 0) 0)

/-- The number of entries of an update whose index is below the length of the
value list and whose name is a channel name. -/
def acceptedCount {V : Type} (T : ChannelDescription) (input : JointState V) : Nat :=
  ((input.name.take input.position.length).filter (fun n => decide (n ∈ T.names))).length

/-- The update without the entries that cannot be resolved: first the names at
an index at or beyond the length of the value list are dropped, then every
pair of a name and the value at its index is deleted when the name is no
channel name. Values beyond the last name belong to no pair and stay. -/
def cleanUpdate {V : Type} (T : ChannelDescription) (input : JointState V) : JointState V :=
  { name :=
      (((input.name.take input.position.length).zip input.position).filter
        (fun p => decide (p.1 ∈ T.names))).map Prod.fst
    position :=
      (((input.name.take input.position.length).zip input.position).filter
        (fun p => decide (p.1 ∈ T.names))).map Prod.snd ++
      input.position.drop input.name.length }

/-! ## Concrete instances

A channel table, drivers and parameter servers on which the definitions are
evaluated. -/

/-- A channel table with the nine channel names of the parameter keys of lines
59-76, in the order of the enumeration. -/
def handChannels : ChannelDescription where
  names := ["THUMB_FLEXION", "THUMB_OPPOSITION", "INDEX_FINGER_DISTAL",
    "INDEX_FINGER_PROXIMAL", "MIDDLE_FINGER_DISTAL", "MIDDLE_FINGER_PROXIMAL",
    "RING_FINGER", "PINKY", "FINGER_SPREAD"]
  size_eq := by decide
  unique := by decide

/-- A driver whose state is the connection flag: it is homed on every channel
exactly when connected, reads position `5` everywhere, and accepts a target
exactly when connected. -/
def flagDriver : SVHFingerManager Bool Int where
  isConnected := fun s => s
  isHomed := fun s _ => s
  getPosition := fun _ _ _ => (true, 5)
  setAllTargetPositions := fun s _ => (s, s)
  setTargetPosition := fun s _ _ _ => (s, s)

/-- An update that names every channel once, in reverse channel order. -/
def reversedUpdate : JointState Int :=
  { name := ["FINGER_SPREAD", "PINKY", "RING_FINGER", "MIDDLE_FINGER_PROXIMAL",
      "MIDDLE_FINGER_DISTAL", "INDEX_FINGER_PROXIMAL", "INDEX_FINGER_DISTAL",
      "THUMB_OPPOSITION", "THUMB_FLEXION"]
    position := [9, 8, 7, 6, 5, 4, 3, 2, 1] }

/-- An update that names two channels and a joint of another device. -/
def twoChannelUpdate : JointState Int :=
  { name := ["PINKY", "elbow", "THUMB_FLEXION"]
    position := [1, 2, 3] }

/-- An update that names every channel once and the pinky a second time. -/
def repeatedPinkyUpdate : JointState Int :=
  { name := ["THUMB_FLEXION", "THUMB_OPPOSITION", "INDEX_FINGER_DISTAL",
      "INDEX_FINGER_PROXIMAL", "MIDDLE_FINGER_DISTAL", "MIDDLE_FINGER_PROXIMAL",
      "RING_FINGER", "PINKY", "FINGER_SPREAD", "PINKY"]
    position := [1, 2, 3, 4, 5, 6, 7, 8, 9, 10] }

/-- An update that names the pinky nine times and no other channel. -/
def ninePinkyUpdate : JointState Int :=
  { name := ["PINKY", "PINKY", "PINKY", "PINKY", "PINKY", "PINKY", "PINKY", "PINKY", "PINKY"]
    position := [1, 2, 3, 4, 5, 6, 7, 8, 9] }

/-- An update that names the pinky twice, with the values `1` and `4`. -/
def pinkyTwiceUpdate : JointState Int :=
  { name := ["PINKY", "PINKY"]
    position := [1, 4] }

/-- An update that names the pinky alone. -/
def pinkyUpdate : JointState Int :=
  { name := ["PINKY"]
    position := [1] }

/-- A parameter server on which every controller list is set to `[1, 2]`, but
`PINKY/position_controller` is not set. -/
def pinkyPositionMissing : String → ParamResult Int :=
  fun key =>
    if key = "PINKY/position_controller" then ParamResult.notRetrieved
    else ParamResult.retrieved [1, 2]

/-! ## The registry lookup -/

theorem string2Enum_lt {str : String} {descriptions : List String} {c : Nat}
    (h : string2Enum str descriptions = some c) : c < descriptions.length := by
  unfold string2Enum at h
  split at h
  · cases h; assumption
  · cases h

theorem string2Enum_getElem? {str : String} {descriptions : List String} {c : Nat}
    (h : string2Enum str descriptions = some c) : descriptions[c]? = some str := by
  unfold string2Enum at h
  split at h
  · next hlt =>
    cases h
    rw [List.getElem?_eq_getElem hlt]
    exact congrArg some (List.getElem_indexOf hlt)
  · cases h

theorem string2Enum_isSome_iff (str : String) (descriptions : List String) :
    (string2Enum str descriptions).isSome = true ↔ str ∈ descriptions := by
  unfold string2Enum
  split
  · next hlt => simpa using List.indexOf_lt_length.mp hlt
  · next hlt => simpa using fun hm => hlt (List.indexOf_lt_length.mpr hm)

theorem string2Enum_eq_none_iff (str : String) (descriptions : List String) :
    string2Enum str descriptions = none ↔ str ∉ descriptions := by
  rw [← string2Enum_isSome_iff]
  cases string2Enum str descriptions <;> simp

theorem string2Enum_getElem (T : ChannelDescription) (c : Nat) (hc : c < T.names.length) :
    string2Enum (T.names.get ⟨c, hc⟩) T.names = some c := by
  unfold string2Enum
  have h := List.indexOf_getElem T.unique c hc
  simp only [List.get_eq_getElem]
  rw [h, if_pos hc]

theorem string2Enum_inj {str str' : String} {descriptions : List String} {c : Nat}
    (h : string2Enum str descriptions = some c) (h' : string2Enum str' descriptions = some c) :
    str = str' := by
  have a := string2Enum_getElem? h
  have b := string2Enum_getElem? h'
  rw [a] at b
  exact Option.some.inj b

/-! ## The read loop -/

theorem acceptedEntries_nil_right {V : Type} (T : ChannelDescription) (name : List String) :
    acceptedEntries T name ([] : List V) = [] := by
  simp [acceptedEntries]

theorem acceptedEntries_cons {V : Type} (T : ChannelDescription) (n : String) (ns : List String)
    (v : V) (vs : List V) :
    acceptedEntries T (n :: ns) (v :: vs) =
      match string2Enum n T.names with
      | some c => (c, v) :: acceptedEntries T ns vs
      | none => acceptedEntries T ns vs := by
  unfold acceptedEntries
  rw [List.zip_cons_cons, List.filterMap_cons]
  cases string2Enum n T.names <;> rfl

theorem readStep_accept {V : Type} (T : ChannelDescription) (position : List V)
    (st : ReadState V) (index : Nat) (n : String) (c : Nat)
    (hs : string2Enum n T.names = some c) (hlt : index < position.length) :
    readStep T position st index n = st.record c (position.get ⟨index, hlt⟩) := by
  simp [readStep, hs, hlt]

theorem readStep_skip {V : Type} (T : ChannelDescription) (position : List V)
    (st : ReadState V) (index : Nat) (n : String)
    (h : string2Enum n T.names = none ∨ ¬ index < position.length) :
    (readStep T position st index n).target_positions = st.target_positions ∧
    (readStep T position st index n).pos_read = st.pos_read ∧
    (readStep T position st index n).pos_read_counter = st.pos_read_counter := by
  unfold readStep
  cases hs : string2Enum n T.names with
  | none => exact ⟨rfl, rfl, rfl⟩
  | some c =>
    rcases h with h | h
    · rw [hs] at h; cases h
    · simp [h]

theorem readLoop_fields {V : Type} (T : ChannelDescription) (position : List V) :
    ∀ (name : List String) (index : Nat) (st : ReadState V),
      (readLoop T position name index st).target_positions =
          (acceptedEntries T name (position.drop index)).foldl
            (fun tp e => tp.set e.1 e.2) st.target_positions ∧
      (readLoop T position name index st).pos_read =
          (acceptedEntries T name (position.drop index)).foldl
            (fun m e => m.set e.1 true) st.pos_read ∧
      (readLoop T position name index st).pos_read_counter % 256 =
          (st.pos_read_counter + (acceptedEntries T name (position.drop index)).length) % 256 ∧
      (st.pos_read_counter < 256 → (readLoop T position name index st).pos_read_counter < 256) := by
  intro name
  induction name with
  | nil =>
    intro index st
    simp [readLoop, acceptedEntries]
  | cons n ns ih =>
    intro index st
    obtain ⟨h1, h2, h3, h4⟩ := ih (index + 1) (readStep T position st index n)
    simp only [readLoop]
    rw [h1, h2, h3]
    by_cases hlt : index < position.length
    · rw [List.drop_eq_getElem_cons hlt, acceptedEntries_cons]
      cases hs : string2Enum n T.names with
      | none =>
        obtain ⟨e1, e2, e3⟩ := readStep_skip T position st index n (Or.inl hs)
        rw [e3] at h4
        rw [e1, e2, e3]
        exact ⟨rfl, rfl, rfl, h4⟩
      | some c =>
        have e := readStep_accept T position st index n c hs hlt
        rw [e] at h4
        rw [e]
        simp only [ReadState.record, List.foldl_cons, List.get_eq_getElem, List.length_cons] at h4 ⊢
        exact ⟨trivial, trivial, by omega, fun _ => h4 (Nat.mod_lt _ (by decide))⟩
    · have hd : position.drop index = [] := List.drop_eq_nil_of_le (by omega)
      have hd' : position.drop (index + 1) = [] := List.drop_eq_nil_of_le (by omega)
      obtain ⟨e1, e2, e3⟩ := readStep_skip T position st index n (Or.inr hlt)
      rw [e3] at h4
      rw [hd, hd', e1, e2, e3]
      simp only [acceptedEntries_nil_right, List.foldl_nil, List.length_nil, Nat.add_zero]
      exact ⟨trivial, trivial, trivial, h4⟩

/-! ## The vectors after the loop -/

theorem foldl_set_length {V : Type} (acc : List (Nat × V)) :
    ∀ tp : List V, (acc.foldl (fun tp e => tp.set e.1 e.2) tp).length = tp.length := by
  induction acc with
  | nil => intro tp; rfl
  | cons e rest ih => intro tp; rw [List.foldl_cons, ih, List.length_set]

theorem foldl_mark_length {V : Type} (acc : List (Nat × V)) :
    ∀ m : List Bool, (acc.foldl (fun m e => m.set e.1 true) m).length = m.length := by
  induction acc with
  | nil => intro m; rfl
  | cons e rest ih => intro m; rw [List.foldl_cons, ih, List.length_set]

theorem foldl_set_untouched {V : Type} (c : Nat) (acc : List (Nat × V))
    (hc : ∀ v, (c, v) ∉ acc) :
    ∀ tp : List V, (acc.foldl (fun tp e => tp.set e.1 e.2) tp)[c]? = tp[c]? := by
  induction acc with
  | nil => intro tp; rfl
  | cons e rest ih =>
    intro tp
    have hne : e.1 ≠ c := by
      intro h
      apply hc e.2
      rw [← h]
      exact List.mem_cons_self _ _
    rw [List.foldl_cons, ih (fun v hv => hc v (List.mem_cons_of_mem _ hv)),
      List.getElem?_set_ne hne]

theorem foldl_set_value {V : Type} (c : Nat) (v : V) (acc : List (Nat × V))
    (hnd : (acc.map Prod.fst).Nodup) (hmem : (c, v) ∈ acc) :
    ∀ tp : List V, c < tp.length →
      (acc.foldl (fun tp e => tp.set e.1 e.2) tp)[c]? = some v := by
  induction acc with
  | nil => cases hmem
  | cons e rest ih =>
    intro tp hlt
    rw [List.map_cons, List.nodup_cons] at hnd
    rw [List.foldl_cons]
    rcases List.mem_cons.mp hmem with h | h
    · subst h
      have hun : ∀ w, (c, w) ∉ rest := by
        intro w hw
        exact hnd.1 (List.mem_map.mpr ⟨(c, w), hw, rfl⟩)
      rw [foldl_set_untouched c rest hun]
      simp [List.getElem?_set, hlt]
    · exact ih hnd.2 h _ (by rw [List.length_set]; exact hlt)

theorem foldl_mark_iff {V : Type} (c : Nat) (acc : List (Nat × V)) :
    ∀ m : List Bool,
      ((acc.foldl (fun m e => m.set e.1 true) m).getD c false = true ↔
        m.getD c false = true ∨ (c < m.length ∧ ∃ v, (c, v) ∈ acc)) := by
  induction acc with
  | nil => intro m; simp
  | cons e rest ih =>
    intro m
    rw [List.foldl_cons, ih, List.length_set]
    simp only [List.getD_eq_getElem?_getD, List.mem_cons]
    by_cases hec : e.1 = c
    · by_cases hlt : c < m.length
      · have : (m.set e.1 true)[c]? = some true := by
          rw [hec]; simp [List.getElem?_set, hlt]
        rw [this]
        simp only [Option.getD_some, true_or, true_iff]
        exact Or.inr ⟨hlt, e.2, Or.inl (by rw [← hec])⟩
      · have h1 : (m.set e.1 true)[c]? = none := by
          apply List.getElem?_eq_none; rw [List.length_set]; omega
        have h2 : m[c]? = none := List.getElem?_eq_none (by omega)
        rw [h1, h2]
        simp [hlt]
    · rw [List.getElem?_set_ne hec]
      constructor
      · rintro (h | ⟨hlt, v, hv⟩)
        · exact Or.inl h
        · exact Or.inr ⟨hlt, v, Or.inr hv⟩
      · rintro (h | ⟨hlt, v, hv | hv⟩)
        · exact Or.inl h
        · exact absurd (congrArg Prod.fst hv).symm hec
        · exact Or.inr ⟨hlt, v, hv⟩

/-! ## The dispatch -/

theorem sendAvailable_commands {σ V : Type} [Zero V] (fm : SVHFingerManager σ V)
    (st : ReadState V) :
    ∀ (fuel i : Nat) (s : σ) (sent : List (Command V)),
      (sendAvailable fm st fuel i s sent).2 =
        sent ++ ((List.range' i fuel).filter (fun c => st.pos_read.getD c false)).map
          (fun c => Command.setTargetPosition c (st.target_positions.getD c 0) 0) := by
  intro fuel
  induction fuel with
  | zero => intro i s sent; simp [sendAvailable]
  | succ fuel ih =>
    intro i s sent
    rw [sendAvailable, List.range'_succ, List.filter_cons]
    by_cases h : st.pos_read.getD i false = true
    · rw [if_pos h, if_pos h, ih, List.map_cons, List.append_assoc]
      rfl
    · rw [if_neg h, if_neg h, ih]

theorem readInput_fields {V : Type} [Zero V] (T : ChannelDescription) (input : JointState V) :
    (readInput T input).target_positions =
        (acceptedEntries T input.name input.position).foldl
          (fun tp e => tp.set e.1 e.2) (List.replicate eSVH_DIMENSION 0) ∧
    (readInput T input).pos_read =
        (acceptedEntries T input.name input.position).foldl
          (fun m e => m.set e.1 true) (List.replicate eSVH_DIMENSION false) ∧
    (readInput T input).pos_read_counter =
        (acceptedEntries T input.name input.position).length % 256 := by
  obtain ⟨h1, h2, h3, h4⟩ := readLoop_fields T input.position input.name 0 (ReadState.init V)
  rw [List.drop_zero] at h1 h2 h3
  refine ⟨h1, h2, ?_⟩
  have hlt := h4 (by simp [ReadState.init])
  rw [Nat.mod_eq_of_lt hlt] at h3
  simpa [ReadState.init] using h3

theorem jointStateCallback_commands {σ V : Type} [Zero V] (T : ChannelDescription)
    (fm : SVHFingerManager σ V) (s : σ) (input : JointState V) :
    (jointStateCallback T fm s input).commands =
      if (acceptedEntries T input.name input.position).length % 256 = eSVH_DIMENSION then
        [Command.setAllTargetPositions (readInput T input).target_positions]
      else
        availableCommands (readInput T input) := by
  unfold jointStateCallback dispatch
  rw [(readInput_fields T input).2.2]
  split
  · rfl
  · simp only [availableCommands, List.range_eq_range']
    rw [sendAvailable_commands]
    rfl

theorem acceptedEntries_length {V : Type} (T : ChannelDescription) :
    ∀ (name : List String) (position : List V),
      (acceptedEntries T name position).length =
        ((name.take position.length).filter (fun n => decide (n ∈ T.names))).length := by
  intro name
  induction name with
  | nil => intro position; simp [acceptedEntries]
  | cons n ns ih =>
    intro position
    cases position with
    | nil => simp [acceptedEntries]
    | cons v vs =>
      rw [acceptedEntries_cons, List.length_cons, List.take_succ_cons, List.filter_cons]
      cases hs : string2Enum n T.names with
      | none =>
        have hn : n ∉ T.names := (string2Enum_eq_none_iff n T.names).mp hs
        simp only [hn, decide_False, Bool.false_eq_true, if_false]
        exact ih vs
      | some c =>
        have hn : n ∈ T.names := by
          rw [← string2Enum_isSome_iff, hs]; rfl
        simp only [hn, decide_True, if_true, List.length_cons]
        rw [ih vs]

theorem zip_take_length {α β : Type} :
    ∀ (l : List α) (r : List β), (l.take r.length).zip r = l.zip r := by
  intro l
  induction l with
  | nil => intro r; simp
  | cons a l ih =>
    intro r
    cases r with
    | nil => simp
    | cons b r => simp [ih r]

theorem zip_map_fst_snd_append {α β : Type} (extra : List β) :
    ∀ l : List (α × β), (l.map Prod.fst).zip (l.map Prod.snd ++ extra) = l := by
  intro l
  induction l with
  | nil => simp
  | cons p l ih => simp [ih]

theorem acceptedEntries_cleanUpdate {V : Type} (T : ChannelDescription) (input : JointState V) :
    acceptedEntries T (cleanUpdate T input).name (cleanUpdate T input).position =
      acceptedEntries T input.name input.position := by
  unfold acceptedEntries cleanUpdate
  simp only
  rw [zip_map_fst_snd_append, zip_take_length, List.filterMap_filter]
  apply List.filterMap_congr
  intro p _
  by_cases hp : p.1 ∈ T.names
  · simp [hp]
  · simp [hp, (string2Enum_eq_none_iff p.1 T.names).mpr hp]

theorem commands_of_acceptedEntries {σ σ' V : Type} [Zero V] (T : ChannelDescription)
    (fm : SVHFingerManager σ V) (fm' : SVHFingerManager σ' V) (s : σ) (s' : σ')
    (input input' : JointState V)
    (h : acceptedEntries T input.name input.position =
      acceptedEntries T input'.name input'.position) :
    (jointStateCallback T fm s input).commands = (jointStateCallback T fm' s' input').commands := by
  rw [jointStateCallback_commands, jointStateCallback_commands]
  obtain ⟨a1, a2, _⟩ := readInput_fields T input
  obtain ⟨b1, b2, _⟩ := readInput_fields T input'
  unfold availableCommands
  rw [a1, a2, b1, b2, h]

/-- C5: entries that cannot be resolved have no effect on the dispatch. The
commands sent for an update are the commands sent for the update from which the
names without a value (index at or beyond the length of the value list) and
then the pairs with a name that is no channel name were removed. -/
theorem unresolved_entries_have_no_effect {σ V : Type} [Zero V] (T : ChannelDescription)
    (fm : SVHFingerManager σ V) (s : σ) (input : JointState V) :
    (jointStateCallback T fm s input).commands =
      (jointStateCallback T fm s (cleanUpdate T input)).commands :=
  commands_of_acceptedEntries T fm fm s s input (cleanUpdate T input)
    (acceptedEntries_cleanUpdate T input).symm

/-- C9: the commands sent for an update are the same for every driver and every
driver state, hence whatever result the driver returns for each command: a
rejected `setTargetPosition` stops none of the commands after it. -/
theorem commands_independent_of_driver_results {σ σ' V : Type} [Zero V]
    (T : ChannelDescription) (fm : SVHFingerManager σ V) (fm' : SVHFingerManager σ' V)
    (s : σ) (s' : σ') (input : JointState V) :
    (jointStateCallback T fm s input).commands = (jointStateCallback T fm' s' input).commands :=
  commands_of_acceptedEntries T fm fm' s s' input input rfl

/-- C10: the decision between the batch and the per channel commands is taken on
the 8 bit counter alone. A `setAllTargetPositions` is sent exactly when the
number of accepted entries is congruent to `9` modulo `256`; it then carries
`target_positions`, whose slot is `0.0` for every channel not marked in
`pos_read`. In every other case the commands are one `setTargetPosition` for
each channel marked in `pos_read`. -/
theorem batch_decided_by_counter {σ V : Type} [Zero V] (T : ChannelDescription)
    (fm : SVHFingerManager σ V) (s : σ) (input : JointState V) :
    ((∃ v, Command.setAllTargetPositions v ∈ (jointStateCallback T fm s input).commands) ↔
        acceptedCount T input % 256 = 9) ∧
    (acceptedCount T input % 256 = 9 →
      (jointStateCallback T fm s input).commands =
          [Command.setAllTargetPositions (readInput T input).target_positions] ∧
        ∀ c, c < eSVH_DIMENSION → (readInput T input).pos_read.getD c false = false →
          (readInput T input).target_positions[c]? = some 0) ∧
    (acceptedCount T input % 256 ≠ 9 →
      (jointStateCallback T fm s input).commands = availableCommands (readInput T input)) := by
  have hcmd := jointStateCallback_commands T fm s input
  have hcount : (acceptedEntries T input.name input.position).length = acceptedCount T input :=
    acceptedEntries_length T input.name input.position
  have hdim : eSVH_DIMENSION = 9 := rfl
  rw [hcount, hdim] at hcmd
  refine ⟨?_, ?_, ?_⟩
  · constructor
    · rintro ⟨v, hv⟩
      by_contra hne
      rw [hcmd, if_neg hne] at hv
      simp [availableCommands] at hv
    · intro h9
      refine ⟨(readInput T input).target_positions, ?_⟩
      rw [hcmd, if_pos h9]
      exact List.mem_singleton_self _
  · intro h9
    refine ⟨by rw [hcmd, if_pos h9], ?_⟩
    intro c hc hmark
    obtain ⟨a1, a2, _⟩ := readInput_fields T input
    rw [a2] at hmark
    have hun : ∀ v, (c, v) ∉ acceptedEntries T input.name input.position := by
      intro v hv
      have := (foldl_mark_iff c (acceptedEntries T input.name input.position)
        (List.replicate eSVH_DIMENSION false)).mpr
        (Or.inr ⟨by rw [List.length_replicate]; exact hc, v, hv⟩)
      rw [hmark] at this
      cases this
    rw [a1, foldl_set_untouched c _ hun]
    exact List.getElem?_replicate_of_lt hc
  · intro hne
    rw [hcmd, if_neg hne]


theorem mem_acceptedEntries_iff {V : Type} (T : ChannelDescription) (name : List String)
    (position : List V) (c : Nat) (v : V) :
    (c, v) ∈ acceptedEntries T name position ↔
      ∃ n, (n, v) ∈ name.zip position ∧ string2Enum n T.names = some c := by
  unfold acceptedEntries
  rw [List.mem_filterMap]
  constructor
  · rintro ⟨⟨n, x⟩, hmem, hx⟩
    cases hs : string2Enum n T.names with
    | none => simp [hs] at hx
    | some c' =>
      simp only [hs, Option.map_some', Option.some.injEq, Prod.mk.injEq] at hx
      obtain ⟨h1, h2⟩ := hx
      subst h1 h2
      exact ⟨n, hmem, hs⟩
  · rintro ⟨n, hmem, hs⟩
    exact ⟨(n, v), hmem, by simp [hs]⟩

theorem acceptedEntries_channels_nodup {V : Type} (T : ChannelDescription) :
    ∀ (name : List String) (position : List V),
      (∀ n ∈ T.names, name.count n ≤ 1) →
      ((acceptedEntries T name position).map Prod.fst).Nodup := by
  intro name
  induction name with
  | nil => intro position _; simp [acceptedEntries]
  | cons a ns ih =>
    intro position honce
    have honce' : ∀ n ∈ T.names, ns.count n ≤ 1 := fun n hn =>
      Nat.le_trans (List.count_le_count_cons n a ns) (honce n hn)
    cases position with
    | nil => simp [acceptedEntries]
    | cons v vs =>
      rw [acceptedEntries_cons]
      cases hs : string2Enum a T.names with
      | none => exact ih vs honce'
      | some c =>
        simp only [List.map_cons, List.nodup_cons]
        refine ⟨?_, ih vs honce'⟩
        intro hc
        obtain ⟨⟨c', w⟩, hw, hcw⟩ := List.mem_map.mp hc
        simp only at hcw
        subst hcw
        obtain ⟨n, hzip, hn⟩ := (mem_acceptedEntries_iff T ns vs c' w).mp hw
        have hna : n = a := string2Enum_inj hn hs
        subst hna
        have hmem : n ∈ ns := (List.of_mem_zip hzip).1
        have hT : n ∈ T.names := by
          rw [← string2Enum_isSome_iff, hs]; rfl
        have h1 := honce n hT
        rw [List.count_cons_self] at h1
        have h2 : 0 < ns.count n := List.count_pos_iff.mpr hmem
        omega

theorem readInput_marked_iff {V : Type} [Zero V] (T : ChannelDescription)
    (input : JointState V) (c : Nat) :
    (readInput T input).pos_read.getD c false = true ↔
      c < eSVH_DIMENSION ∧ ∃ v, (c, v) ∈ acceptedEntries T input.name input.position := by
  rw [(readInput_fields T input).2.1, foldl_mark_iff, List.length_replicate]
  constructor
  · rintro (h | h)
    · exfalso
      rw [List.getD_eq_getElem?_getD, List.getElem?_replicate] at h
      split at h <;> cases h
    · exact h
  · exact fun h => Or.inr h

theorem readInput_target_of_mem {V : Type} [Zero V] (T : ChannelDescription)
    (input : JointState V) (c : Nat) (v : V)
    (hnd : ((acceptedEntries T input.name input.position).map Prod.fst).Nodup)
    (hmem : (c, v) ∈ acceptedEntries T input.name input.position) :
    (readInput T input).target_positions[c]? = some v := by
  rw [(readInput_fields T input).1]
  apply foldl_set_value c v _ hnd hmem
  rw [List.length_replicate]
  obtain ⟨n, _, hn⟩ := (mem_acceptedEntries_iff T _ _ c v).mp hmem
  have := string2Enum_lt hn
  rw [T.size_eq] at this
  exact this

theorem filter_channel_names_nodup (T : ChannelDescription) (name : List String)
    (honce : ∀ n ∈ T.names, name.count n ≤ 1) :
    (name.filter (fun n => decide (n ∈ T.names))).Nodup := by
  rw [List.nodup_iff_count_le_one]
  intro a
  by_cases ha : a ∈ T.names
  · rw [List.count_filter (by simpa using ha)]
    exact honce a ha
  · rw [List.count_eq_zero_of_not_mem]
    · exact Nat.zero_le _
    · intro hmem
      have := (List.mem_filter.mp hmem).2
      simp [ha] at this

theorem marked_channels_length {V : Type} [Zero V] (T : ChannelDescription)
    (input : JointState V)
    (hnd : ((acceptedEntries T input.name input.position).map Prod.fst).Nodup) :
    ((List.range eSVH_DIMENSION).filter
        (fun c => (readInput T input).pos_read.getD c false)).length =
      (acceptedEntries T input.name input.position).length := by
  have hperm : ((List.range eSVH_DIMENSION).filter
      (fun c => (readInput T input).pos_read.getD c false)).Perm
      ((acceptedEntries T input.name input.position).map Prod.fst) := by
    rw [List.perm_ext_iff_of_nodup ((List.nodup_range _).filter _) hnd]
    intro c
    rw [List.mem_filter, List.mem_range, readInput_marked_iff, List.mem_map]
    constructor
    · rintro ⟨_, _, v, hv⟩
      exact ⟨(c, v), hv, rfl⟩
    · rintro ⟨⟨c', v⟩, hv, hcv⟩
      simp only at hcv
      subst hcv
      obtain ⟨n, _, hn⟩ := (mem_acceptedEntries_iff T _ _ c' v).mp hv
      have hlt := string2Enum_lt hn
      rw [T.size_eq] at hlt
      exact ⟨hlt, hlt, v, hv⟩
  rw [hperm.length_eq, List.length_map]

/-- C2: an update that names `k < N` channels, each channel name at most once
and every name paired with a value, makes the callback send exactly `k`
commands, all of them `setTargetPosition` with velocity `0.0`, in ascending
channel order; a channel receives a command exactly when the update names it,
and the command carries the value paired with its name. No
`setAllTargetPositions` is sent. -/
theorem partial_update_sends_named_channels {σ V : Type} [Zero V] (T : ChannelDescription)
    (fm : SVHFingerManager σ V) (s : σ) (input : JointState V)
    (hpair : input.name.length ≤ input.position.length)
    (honce : ∀ n ∈ T.names, input.name.count n ≤ 1)
    (hk : (input.name.filter (fun n => decide (n ∈ T.names))).length < eSVH_DIMENSION) :
    ∃ cs : List (Nat × V),
      (jointStateCallback T fm s input).commands =
          cs.map (fun e => Command.setTargetPosition e.1 e.2 0) ∧
      cs.length = (input.name.filter (fun n => decide (n ∈ T.names))).length ∧
      (cs.map Prod.fst).Pairwise (fun a b => a < b) ∧
      ∀ c v, (c, v) ∈ cs ↔
        ∃ n, (n, v) ∈ input.name.zip input.position ∧ string2Enum n T.names = some c := by
  have hnd := acceptedEntries_channels_nodup T input.name input.position honce
  have hlen : (acceptedEntries T input.name input.position).length =
      (input.name.filter (fun n => decide (n ∈ T.names))).length := by
    rw [acceptedEntries_length, List.take_of_length_le hpair]
  have hcmd := jointStateCallback_commands T fm s input
  have hne : ¬ (acceptedEntries T input.name input.position).length % 256 = eSVH_DIMENSION := by
    rw [hlen]
    have : eSVH_DIMENSION = 9 := rfl
    omega
  rw [if_neg hne] at hcmd
  refine ⟨((List.range eSVH_DIMENSION).filter
      (fun c => (readInput T input).pos_read.getD c false)).map
      (fun c => (c, (readInput T input).target_positions.getD c 0)), ?_, ?_, ?_, ?_⟩
  · rw [hcmd, availableCommands, List.map_map]
    rfl
  · rw [List.length_map, marked_channels_length T input hnd, hlen]
  · rw [List.map_map]
    have : (Prod.fst ∘ fun c => (c, (readInput T input).target_positions.getD c 0)) = id := rfl
    rw [this, List.map_id]
    exact (List.pairwise_lt_range _).filter _
  · intro c v
    rw [← mem_acceptedEntries_iff, List.mem_map]
    constructor
    · rintro ⟨c', hc', heq⟩
      simp only [Prod.mk.injEq] at heq
      obtain ⟨h1, h2⟩ := heq
      subst h1
      obtain ⟨_, x, hx⟩ := (readInput_marked_iff T input c').mp (List.mem_filter.mp hc').2
      have hval := readInput_target_of_mem T input c' x hnd hx
      rw [List.getD_eq_getElem?_getD, hval, Option.getD_some] at h2
      rw [← h2]
      exact hx
    · intro hmem
      obtain ⟨n, _, hn⟩ := (mem_acceptedEntries_iff T _ _ c v).mp hmem
      have hlt := string2Enum_lt hn
      rw [T.size_eq] at hlt
      refine ⟨c, List.mem_filter.mpr ⟨List.mem_range.mpr hlt,
        (readInput_marked_iff T input c).mpr ⟨hlt, v, hmem⟩⟩, ?_⟩
      rw [List.getD_eq_getElem?_getD, readInput_target_of_mem T input c v hnd hmem,
        Option.getD_some]

/-- C1: an update whose name list contains each of the `N = 9` channel names
exactly once, with a value list of the same length, makes the callback send
exactly one command, `setAllTargetPositions v`, and no `setTargetPosition`;
`v` has `N` slots, and for every channel `c` the slot `v[c]` is the value
paired with the name of `c` in the update. -/
theorem full_update_sends_one_batch {σ V : Type} [Zero V] (T : ChannelDescription)
    (fm : SVHFingerManager σ V) (s : σ) (input : JointState V)
    (hall : ∀ n ∈ T.names, input.name.count n = 1)
    (hlen : input.position.length = input.name.length) :
    ∃ v : List V,
      (jointStateCallback T fm s input).commands = [Command.setAllTargetPositions v] ∧
      v.length = eSVH_DIMENSION ∧
      ∀ (c : Nat) (hc : c < T.names.length),
        (∃ x, (T.names.get ⟨c, hc⟩, x) ∈ input.name.zip input.position) ∧
        ∀ x, (T.names.get ⟨c, hc⟩, x) ∈ input.name.zip input.position → v[c]? = some x := by
  have honce : ∀ n ∈ T.names, input.name.count n ≤ 1 := fun n hn => Nat.le_of_eq (hall n hn)
  have hnd := acceptedEntries_channels_nodup T input.name input.position honce
  have hperm : (input.name.filter (fun n => decide (n ∈ T.names))).Perm T.names := by
    rw [List.perm_ext_iff_of_nodup (filter_channel_names_nodup T input.name honce) T.unique]
    intro n
    rw [List.mem_filter]
    constructor
    · rintro ⟨_, h⟩
      simpa using h
    · intro hn
      refine ⟨?_, by simpa using hn⟩
      rw [← List.count_pos_iff, hall n hn]
      exact Nat.one_pos
  have hcount : (acceptedEntries T input.name input.position).length = eSVH_DIMENSION := by
    rw [acceptedEntries_length, List.take_of_length_le (Nat.le_of_eq hlen.symm),
      hperm.length_eq, T.size_eq]
  have hcmd := jointStateCallback_commands T fm s input
  rw [hcount, if_pos (by decide)] at hcmd
  refine ⟨(readInput T input).target_positions, hcmd, ?_, ?_⟩
  · rw [(readInput_fields T input).1, foldl_set_length, List.length_replicate]
  · intro c hc
    have hs := string2Enum_getElem T c hc
    constructor
    · have hmem : T.names.get ⟨c, hc⟩ ∈ input.name := by
        rw [← List.count_pos_iff, hall _ (List.get_mem _ _ _)]
        exact Nat.one_pos
      rw [← List.map_fst_zip input.name input.position (Nat.le_of_eq hlen.symm)] at hmem
      obtain ⟨⟨n, x⟩, hzip, hn⟩ := List.mem_map.mp hmem
      simp only at hn
      subst hn
      exact ⟨x, hzip⟩
    · intro x hx
      exact readInput_target_of_mem T input c x hnd
        ((mem_acceptedEntries_iff T _ _ c x).mpr ⟨_, hx, hs⟩)


/-! ## The feedback snapshot -/

theorem updatePositions_length {σ V : Type} [Zero V] (fm : SVHFingerManager σ V) (s : σ) :
    ∀ (fuel channel : Nat) (position : List V),
      (updatePositions fm s fuel channel position).length = position.length := by
  intro fuel
  induction fuel with
  | zero => intro channel position; rfl
  | succ fuel ih =>
    intro channel position
    rw [updatePositions, ih, List.length_set]

theorem updatePositions_getElem? {σ V : Type} [Zero V] (fm : SVHFingerManager σ V) (s : σ) :
    ∀ (fuel channel : Nat) (position : List V) (c : Nat),
      (updatePositions fm s fuel channel position)[c]? =
        if channel ≤ c ∧ c < channel + fuel ∧ c < position.length then
          some (currentPosition fm s c)
        else position[c]? := by
  intro fuel
  induction fuel with
  | zero =>
    intro channel position c
    rw [updatePositions, if_neg (by omega)]
  | succ fuel ih =>
    intro channel position c
    rw [updatePositions, ih, List.length_set, List.getElem?_set]
    by_cases hc : channel = c
    · subst hc
      rw [if_neg (by omega)]
      by_cases hlt : channel < position.length
      · rw [if_pos rfl, if_pos hlt, if_pos ⟨Nat.le_refl _, by omega, hlt⟩]
      · rw [if_pos rfl, if_neg hlt, if_neg (by omega)]
        exact (List.getElem?_eq_none (by omega)).symm
    · rw [if_neg hc]
      by_cases h : channel + 1 ≤ c ∧ c < channel + 1 + fuel ∧ c < position.length
      · rw [if_pos h, if_pos (by omega)]
      · rw [if_neg h, if_neg (by omega)]

/-! ## The controller settings -/

theorem readStatements_invalidName {W : Type} (nh : String → ParamResult W) :
    ∀ (statements : List (String × SettingsKind × Nat)) (settings : List (List W) × List (List W)),
      (∃ e ∈ statements, nh e.1 = ParamResult.invalidName) →
      readStatements nh statements settings = none := by
  intro statements
  induction statements with
  | nil => rintro _ ⟨e, he, _⟩; cases he
  | cons e rest ih =>
    rintro ⟨position_settings, current_settings⟩ ⟨e', hmem, hthrow⟩
    obtain ⟨key, kind, channel⟩ := e
    by_cases hkey : nh key = ParamResult.invalidName
    · cases kind <;> simp [readStatements, readParam, hkey]
    · have hrest : ∃ e ∈ rest, nh e.1 = ParamResult.invalidName := by
        rcases List.mem_cons.mp hmem with h | h
        · subst h; exact absurd hthrow hkey
        · exact ⟨e', h, hthrow⟩
      cases kind <;>
      · simp only [readStatements, readParam]
        cases hr : nh key with
        | retrieved value => exact ih _ hrest
        | notRetrieved => exact ih _ hrest
        | invalidName => exact absurd hr hkey

/-- When a `getParam` statement of the constructor throws, no settings call is
sent and the error is logged. -/
theorem configureControllers_invalidName {W : Type} (nh : String → ParamResult W)
    (h : ∃ e ∈ settingsStatements, nh e.1 = ParamResult.invalidName) :
    configureControllers nh = ([], true) := by
  unfold configureControllers readControllerSettings
  rw [readStatements_invalidName nh _ _ h]

theorem foldl_set_last {V : Type} (c : Nat) (v : V) (earlier later : List (Nat × V))
    (hlater : ∀ e ∈ later, e.1 ≠ c) (tp : List V) (hlt : c < tp.length) :
    ((earlier ++ (c, v) :: later).foldl (fun tp e => tp.set e.1 e.2) tp)[c]? = some v := by
  rw [List.foldl_append, List.foldl_cons]
  rw [foldl_set_untouched c later (fun w hw => hlater (c, w) hw rfl)]
  have hlen := foldl_set_length earlier tp
  simp [List.getElem?_set, hlen, hlt]

theorem exists_last_satisfying {α : Type} (P : α → Prop) :
    ∀ l : List α, (∃ x ∈ l, P x) →
      ∃ (before : List α) (x : α) (after : List α),
        l = before ++ x :: after ∧ P x ∧ ∀ y ∈ after, ¬ P y := by
  intro l
  induction l with
  | nil => rintro ⟨x, hx, _⟩; cases hx
  | cons a t ih =>
    intro hex
    by_cases ht : ∃ x ∈ t, P x
    · obtain ⟨before, x, after, hsplit, hx, hafter⟩ := ih ht
      exact ⟨a :: before, x, after, by rw [hsplit]; rfl, hx, hafter⟩
    · obtain ⟨x, hx, hPx⟩ := hex
      rcases List.mem_cons.mp hx with h | h
      · subst h
        exact ⟨[], x, t, rfl, hPx, fun y hy hPy => ht ⟨y, hy, hPy⟩⟩
      · exact absurd ⟨x, h, hPx⟩ ht

/-! ## The claims on the dispatch at concrete updates -/

/-- C3 (the code departs from the claim): for the update that names all nine
channels and the pinky a second time, every channel is marked in `pos_read`,
yet the counter is `10` and the callback sends nine `setTargetPosition`
commands instead of one `setAllTargetPositions`. -/
theorem full_mask_with_repeated_name_sends_no_batch :
    (readInput handChannels repeatedPinkyUpdate).pos_read = List.replicate 9 true ∧
    (readInput handChannels repeatedPinkyUpdate).pos_read_counter = 10 ∧
    (jointStateCallback handChannels flagDriver true repeatedPinkyUpdate).commands =
      [Command.setTargetPosition 0 1 0, Command.setTargetPosition 1 2 0,
        Command.setTargetPosition 2 3 0, Command.setTargetPosition 3 4 0,
        Command.setTargetPosition 4 5 0, Command.setTargetPosition 5 6 0,
        Command.setTargetPosition 6 7 0, Command.setTargetPosition 7 10 0,
        Command.setTargetPosition 8 9 0] := by
  decide

/-- C4 (the code departs from the claim): for the update that names the pinky
nine times, only the pinky is marked in `pos_read`, yet the counter is `9` and
the callback sends one `setAllTargetPositions` that carries the target `0.0`
for the eight channels that were not named. -/
theorem repeated_name_sends_batch_with_zero_targets :
    (readInput handChannels ninePinkyUpdate).pos_read =
      [false, false, false, false, false, false, false, true, false] ∧
    (readInput handChannels ninePinkyUpdate).pos_read_counter = 9 ∧
    (jointStateCallback handChannels flagDriver true ninePinkyUpdate).commands =
      [Command.setAllTargetPositions [0, 0, 0, 0, 0, 0, 0, 9, 0]] := by
  decide

/-- C6 (the claim fails): the driver reports the pinky as not homed, and the
callback still forwards the `setTargetPosition` for the pinky. -/
theorem target_forwarded_to_channel_not_homed :
    flagDriver.isHomed false eSVH_PINKY = false ∧
    Command.setTargetPosition eSVH_PINKY 1 0 ∈
      (jointStateCallback handChannels flagDriver false pinkyUpdate).commands := by
  decide

/-- C6 (amended): the callback does not consult `isHomed`. For every update
with an entry for channel `c` that the read loop accepts, take the last such
entry, with value `v`. Whatever `isHomed` reports, in particular when it
reports `c` as not homed, the commands are those sent for the given driver, and
the value `v` is forwarded for `c`: as `setTargetPosition c v 0.0`, or as
slot `c` of the one `setAllTargetPositions` batch. -/
theorem accepted_target_forwarded_whatever_isHomed {σ V : Type} [Zero V]
    (T : ChannelDescription) (fm : SVHFingerManager σ V) (s : σ) (input : JointState V)
    (c : Nat)
    (hentry : ∃ p ∈ input.name.zip input.position, string2Enum p.1 T.names = some c) :
    ∃ (before after : List (String × V)) (n : String) (v : V),
      input.name.zip input.position = before ++ (n, v) :: after ∧
      string2Enum n T.names = some c ∧
      (∀ p ∈ after, string2Enum p.1 T.names ≠ some c) ∧
      ∀ homed : σ → Nat → Bool,
        (jointStateCallback T { fm with isHomed := homed } s input).commands =
            (jointStateCallback T fm s input).commands ∧
        (Command.setTargetPosition c v 0 ∈
            (jointStateCallback T { fm with isHomed := homed } s input).commands ∨
          ∃ vs, (jointStateCallback T { fm with isHomed := homed } s input).commands =
              [Command.setAllTargetPositions vs] ∧ vs[c]? = some v) := by
  obtain ⟨before, ⟨n, v⟩, after, hsplit, hn, hafter⟩ :=
    exists_last_satisfying (fun p : String × V => string2Enum p.1 T.names = some c)
      (input.name.zip input.position) hentry
  refine ⟨before, after, n, v, hsplit, hn, hafter, ?_⟩
  have hlt : c < eSVH_DIMENSION := by
    have := string2Enum_lt hn
    rw [T.size_eq] at this
    exact this
  have hacc : acceptedEntries T input.name input.position =
      (before.filterMap
          (fun p => (string2Enum p.1 T.names).map (fun channel => (channel, p.2)))) ++
        (c, v) :: (after.filterMap
          (fun p => (string2Enum p.1 T.names).map (fun channel => (channel, p.2)))) := by
    unfold acceptedEntries
    rw [hsplit, List.filterMap_append, List.filterMap_cons]
    simp only [hn, Option.map_some']
  have hlater : ∀ e ∈ after.filterMap
      (fun p => (string2Enum p.1 T.names).map (fun channel => (channel, p.2))), e.1 ≠ c := by
    intro e he hec
    obtain ⟨p, hp, hpe⟩ := List.mem_filterMap.mp he
    cases hs : string2Enum p.1 T.names with
    | none => simp [hs] at hpe
    | some c' =>
      simp only [hs, Option.map_some', Option.some.injEq] at hpe
      subst hpe
      simp only at hec
      subst hec
      exact hafter p hp hs
  have hval : (readInput T input).target_positions[c]? = some v := by
    rw [(readInput_fields T input).1, hacc]
    apply foldl_set_last c v _ _ hlater
    rw [List.length_replicate]
    exact hlt
  have hmark : (readInput T input).pos_read.getD c false = true :=
    (readInput_marked_iff T input c).mpr ⟨hlt, v, by rw [hacc]; simp⟩
  intro homed
  refine ⟨commands_of_acceptedEntries T _ fm s s input input rfl, ?_⟩
  rw [jointStateCallback_commands]
  split
  · exact Or.inr ⟨(readInput T input).target_positions, rfl, hval⟩
  · refine Or.inl ?_
    unfold availableCommands
    refine List.mem_map.mpr ⟨c, List.mem_filter.mpr ⟨List.mem_range.mpr hlt, hmark⟩, ?_⟩
    rw [List.getD_eq_getElem?_getD, hval, Option.getD_some]

/-- Witness of C6 (amended): the pinky is named twice; whatever `isHomed`
reports, the value of the second entry is forwarded for the pinky. -/
theorem accepted_target_forwarded_whatever_isHomed_witness :
    (∃ p ∈ pinkyTwiceUpdate.name.zip pinkyTwiceUpdate.position,
      string2Enum p.1 handChannels.names = some 7) ∧
    ∃ (before after : List (String × Int)) (n : String) (v : Int),
      pinkyTwiceUpdate.name.zip pinkyTwiceUpdate.position = before ++ (n, v) :: after ∧
      string2Enum n handChannels.names = some 7 ∧
      (∀ p ∈ after, string2Enum p.1 handChannels.names ≠ some 7) ∧
      ∀ homed : Bool → Nat → Bool,
        (jointStateCallback handChannels { flagDriver with isHomed := homed } false
            pinkyTwiceUpdate).commands =
            (jointStateCallback handChannels flagDriver false pinkyTwiceUpdate).commands ∧
        (Command.setTargetPosition 7 v 0 ∈
            (jointStateCallback handChannels { flagDriver with isHomed := homed } false
              pinkyTwiceUpdate).commands ∨
          ∃ vs, (jointStateCallback handChannels { flagDriver with isHomed := homed } false
              pinkyTwiceUpdate).commands =
              [Command.setAllTargetPositions vs] ∧ vs[7]? = some v) :=
  ⟨⟨("PINKY", 4), by decide, by decide⟩,
    accepted_target_forwarded_whatever_isHomed handChannels flagDriver false pinkyTwiceUpdate 7
      ⟨("PINKY", 4), by decide, by decide⟩⟩

/-- C7 (the claim fails): after a snapshot taken while connected, the driver
is disconnected and reports no channel as homed, and the next snapshot still
returns the old position `5` for every channel instead of `0.0`. -/
theorem snapshot_keeps_old_positions_when_disconnected :
    flagDriver.isConnected false = false ∧
    (∀ c, c < 9 → flagDriver.isHomed false c = false) ∧
    getCurrentPositions flagDriver false
        (getCurrentPositions flagDriver true (initialPositions Int)) =
      [5, 5, 5, 5, 5, 5, 5, 5, 5] := by
  decide

/-- C7 (amended): on a coordinator state with `N` positions, when the driver
is connected the snapshot holds for each of the `N` channels the value that
`getPosition` leaves in `cur_pos` if the channel is homed and `0.0` otherwise;
when the driver is not connected the snapshot is the stored positions,
unchanged. -/
theorem getCurrentPositions_snapshot {σ V : Type} [Zero V] (fm : SVHFingerManager σ V) (s : σ)
    (channel_pos : List V) (hlen : channel_pos.length = eSVH_DIMENSION) :
    (fm.isConnected s = true →
      (getCurrentPositions fm s channel_pos).length = eSVH_DIMENSION ∧
      ∀ c, c < eSVH_DIMENSION →
        (getCurrentPositions fm s channel_pos)[c]? =
          some (if fm.isHomed s c = true then (fm.getPosition s c 0).2 else 0)) ∧
    (fm.isConnected s = false → getCurrentPositions fm s channel_pos = channel_pos) := by
  constructor
  · intro hconn
    unfold getCurrentPositions
    rw [if_pos hconn]
    refine ⟨by rw [updatePositions_length, hlen], ?_⟩
    intro c hc
    rw [updatePositions_getElem?, if_pos ⟨Nat.zero_le _, by omega, by omega⟩]
    rfl
  · intro hconn
    unfold getCurrentPositions
    rw [hconn]
    rfl

/-- Witness of C7 (amended): the snapshot of the connected driver on the
positions of the constructor. -/
theorem getCurrentPositions_snapshot_witness :
    (initialPositions Int).length = eSVH_DIMENSION ∧
    (flagDriver.isConnected true = true →
      (getCurrentPositions flagDriver true (initialPositions Int)).length = eSVH_DIMENSION ∧
      ∀ c, c < eSVH_DIMENSION →
        (getCurrentPositions flagDriver true (initialPositions Int))[c]? =
          some (if flagDriver.isHomed true c = true then (flagDriver.getPosition true c 0).2
            else 0)) ∧
    (flagDriver.isConnected true = false →
      getCurrentPositions flagDriver true (initialPositions Int) = initialPositions Int) :=
  ⟨by decide, getCurrentPositions_snapshot flagDriver true (initialPositions Int) (by decide)⟩

/-- C8 (the code departs from the claim): `PINKY/position_controller` is not
set, `getParam` returns `false` without throwing, and the constructor still
sends all eighteen settings calls, the one for the pinky's position controller
with an empty list; the error of line 86 is not logged. -/
theorem settings_sent_although_a_list_is_missing :
    pinkyPositionMissing "PINKY/position_controller" = ParamResult.notRetrieved ∧
    (configureControllers pinkyPositionMissing).1.length = 18 ∧
    ConfigCall.setPositionControllerParams eSVH_PINKY [] ∈
      (configureControllers pinkyPositionMissing).1 ∧
    ConfigCall.setCurrentControllerParams eSVH_THUMB_FLEXION [1, 2] ∈
      (configureControllers pinkyPositionMissing).1 ∧
    (configureControllers pinkyPositionMissing).2 = false := by
  decide

/-- Witness of C1: the update that names the nine channels in reverse order. -/
theorem full_update_sends_one_batch_witness :
    (∀ n ∈ handChannels.names, reversedUpdate.name.count n = 1) ∧
    reversedUpdate.position.length = reversedUpdate.name.length ∧
    ∃ v : List Int,
      (jointStateCallback handChannels flagDriver true reversedUpdate).commands =
        [Command.setAllTargetPositions v] ∧
      v.length = eSVH_DIMENSION ∧
      ∀ (c : Nat) (hc : c < handChannels.names.length),
        (∃ x, (handChannels.names.get ⟨c, hc⟩, x) ∈
          reversedUpdate.name.zip reversedUpdate.position) ∧
        ∀ x, (handChannels.names.get ⟨c, hc⟩, x) ∈
          reversedUpdate.name.zip reversedUpdate.position → v[c]? = some x :=
  ⟨by decide, by decide,
    full_update_sends_one_batch handChannels flagDriver true reversedUpdate
      (by decide) (by decide)⟩

/-- Witness of C2: the update that names the pinky, an unknown joint and the
thumb flexion. -/
theorem partial_update_sends_named_channels_witness :
    twoChannelUpdate.name.length ≤ twoChannelUpdate.position.length ∧
    (∀ n ∈ handChannels.names, twoChannelUpdate.name.count n ≤ 1) ∧
    (twoChannelUpdate.name.filter (fun n => decide (n ∈ handChannels.names))).length <
      eSVH_DIMENSION ∧
    ∃ cs : List (Nat × Int),
      (jointStateCallback handChannels flagDriver true twoChannelUpdate).commands =
          cs.map (fun e => Command.setTargetPosition e.1 e.2 0) ∧
      cs.length =
        (twoChannelUpdate.name.filter (fun n => decide (n ∈ handChannels.names))).length ∧
      (cs.map Prod.fst).Pairwise (fun a b => a < b) ∧
      ∀ c v, (c, v) ∈ cs ↔
        ∃ n, (n, v) ∈ twoChannelUpdate.name.zip twoChannelUpdate.position ∧
          string2Enum n handChannels.names = some c :=
  ⟨by decide, by decide, by decide,
    partial_update_sends_named_channels handChannels flagDriver true twoChannelUpdate
      (by decide) (by decide) (by decide)⟩

end SVHNode
